import Mathlib

/-!
Verification of the audio-grab capture-to-container pipeline.

The development shallowly embeds the two Go source files of the repository
(`src/main.go`, the streaming-encoder variant, and `src/unnamed/part_000`,
the buffering variant that encodes through the beep/wav library):

* `findWorkingSampleRate` — sample-rate negotiation (identical loop in both
  files), with the device capability probe abstracted as a boolean predicate;
* `writeSample`, `processBlock`, `recordSession` — the recording loop of
  `main.go`: gain application, int16 conversion, per-frame channel handling
  and the `totalBytesWritten` counter;
* `clampSample` — the gain-and-clamp transform of `part_000`;
* `multiChannelStreamer`, `streamerDrain`, `mkFrame` — the beep streamer of
  `part_000` that downmixes to a stereo frame buffer;
* `writeWavHeader`, `updateWavHeader` — the 44-byte WAV container encoder
  and the finalization patch of `main.go`.

Machine integers are modelled as `Nat`/`Int` with explicit reduction modulo
`2^16`/`2^32` exactly where the Go code converts between integer widths.
Go's `float64` sample arithmetic is modelled over `ℚ`; every concrete value
the theorems below evaluate at (integer samples scaled by `1/32767`,
a gain of `2.0`, sums of at most a few thousand int16 values) is exactly
representable in `float64`, and the comparisons performed on them
(`> 1.0`, `< -1.0`) are exact, so the rational model agrees with the
Go computation at each evaluated point.  Files are modelled as byte lists
(`List Nat`, one entry per byte, each < 256), and a seek-then-overwrite on
an `*os.File` as `writeBytesAt`.
-/

namespace AudioGrab

/-- Little-endian encoding of the low 16 bits of a natural number, as
written by `binary.Write(w, binary.LittleEndian, x : uint16)`. -/
def le16 (n : Nat) : List Nat := [n % 256, n / 256 % 256]

/-- Little-endian encoding of the low 32 bits of a natural number, as
written by `binary.Write(w, binary.LittleEndian, x : uint32)`. -/
def le32 (n : Nat) : List Nat :=
  [n % 256, n / 256 % 256, n / 65536 % 256, n / 16777216 % 256]

/-- Read back a little-endian 16-bit value from a byte list at an offset. -/
def readLE16 (bs : List Nat) (off : Nat) : Nat :=
  bs.getD off 0 + 256 * bs.getD (off + 1) 0

/-- Read back a little-endian 32-bit value from a byte list at an offset. -/
def readLE32 (bs : List Nat) (off : Nat) : Nat :=
  bs.getD off 0 + 256 * bs.getD (off + 1) 0 +
    65536 * bs.getD (off + 2) 0 + 16777216 * bs.getD (off + 3) 0

/-- The 44-byte WAV header produced by `writeWavHeader` in `main.go`.
Parameters mirror the Go signature
`writeWavHeader(w, sampleRate uint32, numChannels uint16, bitsPerSample int,
dataSize uint32)`; the callers' `uint32`/`uint16` arguments are modelled as
naturals (the theorems bound them by the type's range), `bitsPerSample` is a
Go `int`, and each Go conversion or fixed-width operation carries its
explicit modulus:
`uint16(bitsPerSample)` is `% 65536`, the `uint16` product inside
`blockAlign := numChannels * uint16(bitsPerSample) / 8` wraps at `65536`,
the `uint32` products/sums wrap at `4294967296`.  The byte values 82,73,70,70 /
87,65,86,69 / 102,109,116,32 / 100,97,116,97 are the ASCII tags written as
`"RIFF"`, `"WAVE"`, `"fmt "`, `"data"`. -/
def writeWavHeader (sampleRate numChannels : Nat) (bitsPerSample : Int)
    (dataSize : Nat) : List Nat :=
  let bps : Nat := (bitsPerSample % 65536).toNat
  let blockAlign : Nat := numChannels * bps % 65536 / 8
  let byteRate : Nat := sampleRate * blockAlign % 4294967296
  [82, 73, 70, 70] ++ le32 ((36 + dataSize) % 4294967296) ++
    [87, 65, 86, 69] ++ [102, 109, 116, 32] ++
    le32 16 ++ le16 1 ++ le16 numChannels ++ le32 sampleRate ++
    le32 byteRate ++ le16 blockAlign ++ le16 bps ++
    [100, 97, 116, 97] ++ le32 dataSize

/-- Decoding the four stored parameters back out of an encoded header:
SampleRate at offset 24, NumChannels at 22, BitsPerSample at 34,
Subchunk2Size (dataSize) at 40. -/
def decodeWavHeader (bs : List Nat) : Nat × Nat × Nat × Nat :=
  (readLE32 bs 24, readLE16 bs 22, readLE16 bs 34, readLE32 bs 40)

/-- One seek-and-overwrite operation on the output file: `Seek(offset, 0)`
followed by `binary.Write` of the given bytes. -/
structure SeekWrite where
  offset : Nat
  bytes : List Nat
  deriving DecidableEq

/-- The sequence of seek-and-overwrite operations performed by
`updateWavHeader` in `main.go`: `Seek(4, 0)` then write
`uint32(36 + dataSize)`, and `Seek(40, 0)` then write `uint32(dataSize)`.
`dataSize` is the Go `int` byte counter (non-negative), and the `uint32`
conversions wrap at `4294967296`. -/
def updateWavHeaderOps (dataSize : Nat) : List SeekWrite :=
  [⟨4, le32 ((36 + dataSize) % 4294967296)⟩, ⟨40, le32 (dataSize % 4294967296)⟩]

/-- Overwrite the bytes of `file` starting at position `pos` with `bytes`,
the effect of a seek to `pos` followed by a write on a random-access file
(the program only ever overwrites strictly inside the existing 44-byte
header, so no extension case arises). -/
def writeBytesAt (file : List Nat) (pos : Nat) (bytes : List Nat) : List Nat :=
  file.take pos ++ bytes ++ file.drop (pos + bytes.length)

/-- The effect of `updateWavHeader` in `main.go` on the output file:
its two seek-and-overwrite operations applied in order. -/
def updateWavHeader (file : List Nat) (dataSize : Nat) : List Nat :=
  (updateWavHeaderOps dataSize).foldl (fun f op => writeBytesAt f op.offset op.bytes) file

/-- Sample-rate negotiation, `findWorkingSampleRate` in both source files:
walk the candidate list in order and return the first rate for which the
device capability probe (`portaudio.IsFormatSupported` on the stream
parameters, abstracted here as the predicate `isFormatSupported`) succeeds;
if the loop exhausts the list, the Go function returns `(0, os.ErrInvalid)`,
modelled as `none`. -/
def findWorkingSampleRate (isFormatSupported : ℚ → Bool) : List ℚ → Option ℚ
  | [] => none
  | rate :: rest =>
    if isFormatSupported rate then some rate
    else findWorkingSampleRate isFormatSupported rest

/-- The check whether every candidate in a list fails the capability probe,
used to state the negotiation-failure condition executably. -/
def noneSupported (isFormatSupported : ℚ → Bool) (rates : List ℚ) : Bool :=
  rates.all fun rate => !(isFormatSupported rate)

/-- Normalization `int16ToFloat64` (identical in both source files):
`float64(s) / float64(math.MaxInt16)`, i.e. division by 32767. -/
def int16ToFloat64 (s : Int) : ℚ := (s : ℚ) / 32767

/-- The gain-and-clamp transform of `part_000` (lines 89–97): normalize the
raw sample, multiply by the gain (`volume`), then clamp the result into
`[-1.0, 1.0]`. -/
def clampSample (s : Int) (volume : ℚ) : ℚ :=
  let sample := int16ToFloat64 s * volume
  if 1 < sample then 1 else if sample < -1 then -1 else sample

/-- Truncation of a rational toward zero, the rounding Go uses when
converting a `float64` to an integer type. -/
def ratTrunc (q : ℚ) : Int := Int.tdiv q.num (q.den : Int)

/-- Reduction of an integer into the signed 16-bit range `[-32768, 32767]`,
the effect of Go's conversion of a wider value to `int16` on the mainstream
(gc) implementation: keep the low 16 bits, two's complement. -/
def wrap16 (n : Int) : Int := (n + 32768) % 65536 - 32768

/-- The value written by the `writeSample` closure of `main.go` (lines
89–94): `int16(float64(s) * volume)` — gain application with *no* clamp,
despite the adjacent comment `// Apply volume and clamp`; an out-of-range
product overflows the `int16` conversion instead of saturating. -/
def writeSample (s : Int) (volume : ℚ) : Int :=
  wrap16 (ratTrunc ((s : ℚ) * volume))

/-- The `default` (more-than-2-channel) downmix of the recording loop in
`main.go` (lines 120–127): `sum` accumulates `int(buffer[i+ch])` for
`ch < channels && i+ch < len(buffer)` (here over the tail `buf` starting at
loop index `i`; the bounds check is expressed as a guard under the same
condition, equivalent to the loop's early exit because the index is
increasing), then `avg := int16(sum / channels)` — Go `int` division
truncates toward zero (`Int.tdiv`) and the `int16` conversion wraps. -/
def downmixAvg (buf : List Int) (channels : Nat) : Int :=
  let sum := ((List.range channels).map fun ch =>
    if ch < buf.length then buf.getD ch 0 else 0).sum
  wrap16 (Int.tdiv sum (channels : Int))

/-- One pass of the inner loop of `main.go`'s recording loop (lines
106–134), `for i := 0; i < len(buffer); i += channels`, expressed on the
tail of the buffer from the current index: returns the list of `int16`
values passed to `writeSample` (in write order) and the total increment of
`totalBytesWritten`.  `case 1` writes the sample and — as in the source —
adds nothing to the counter; `case 2` writes `buffer[i]` and `buffer[i+1]`
and adds 4; the `default` case writes the downmix average twice and adds 4.
The `channels = 0` branch is unreachable for the program (the constant is
at least 1; the Go loop would not advance) and is present only to keep the
recursion total. -/
def processBlock (channels : Nat) (volume : ℚ) : List Int → List Int × Nat
  | [] => ([], 0)
  | s :: rest =>
    match channels with
    | 0 => ([], 0)
    | 1 =>
      let r := processBlock 1 volume rest
      (writeSample s volume :: r.1, r.2)
    | 2 =>
      let left := s
      let right := rest.getD 0 0
      let r := processBlock 2 volume (rest.drop 1)
      (writeSample left volume :: writeSample right volume :: r.1, r.2 + 4)
    | ch + 3 =>
      let avg := downmixAvg (s :: rest) (ch + 3)
      let r := processBlock (ch + 3) volume (rest.drop (ch + 2))
      (writeSample avg volume :: writeSample avg volume :: r.1, r.2 + 4)
  termination_by buf => buf.length
  decreasing_by
  all_goals simp [List.length_drop]
  all_goals omega

/-- A whole recording session of `main.go`: fold the recording loop over the
captured blocks, accumulating the number of bytes actually appended to the
file (each `binary.Write` of an `int16` appends 2 bytes) and the
`totalBytesWritten` counter that `updateWavHeader` is later called with. -/
def recordSession (channels : Nat) (volume : ℚ) (blocks : List (List Int)) :
    Nat × Nat :=
  blocks.foldl (fun acc buffer =>
    let r := processBlock channels volume buffer
    (acc.1 + 2 * r.1.length, acc.2 + r.2)) (0, 0)

/-- Little-endian bytes of an `int16` value as `binary.Write` emits them. -/
def int16Bytes (s : Int) : List Nat := le16 ((s % 65536).toNat)

/-- The complete output file of a `main.go` session: placeholder header
(dataSize 0) followed by the sample bytes of every block, finalized by
`updateWavHeader` with the session's `totalBytesWritten` counter. -/
def sessionFile (sampleRate channels : Nat) (volume : ℚ)
    (blocks : List (List Int)) : List Nat :=
  let header := writeWavHeader sampleRate channels 16 0
  let written := (blocks.map fun buffer => (processBlock channels volume buffer).1).flatten
  let counter := (recordSession channels volume blocks).2
  updateWavHeader (header ++ (written.map int16Bytes).flatten) counter

/-- One output frame of the beep streamer in `part_000`
(`multiChannelStreamer`, lines 125–141), built at sample index `i`:
`case 1` copies `samples[i]` to both stereo slots, `case 2` passes
`samples[i]`/`samples[i+1]` through, and the `default` case averages
`samples[i+k]` for `k < ch && i+k < len(samples)` (expressed as a guard
under the same condition, equivalent to the loop's early exit) and divides
by `float64(ch)`. -/
def mkFrame (samples : List ℚ) (ch i : Nat) : ℚ × ℚ :=
  match ch with
  | 1 => (samples.getD i 0, samples.getD i 0)
  | 2 => (samples.getD i 0, samples.getD (i + 1) 0)
  | _ =>
    let sum := ((List.range ch).map fun k =>
      if i + k < samples.length then samples.getD (i + k) 0 else 0).sum
    (sum / (ch : ℚ), sum / (ch : ℚ))

/-- One call of the streamer closure of `part_000` (lines 120–145) with a
destination buffer of `bufLen` frames, starting at closure state `i`:
`for j := 0; j < len(buf); j++ { if i+ch > len(samples) { return j, false }
... ; i += ch }`.  Returns the start indices of the frames emitted by this
call (the frame written into `buf[j]` is `mkFrame samples ch` at that
index) and the `ok` flag. -/
def multiChannelStreamer (samples : List ℚ) (ch : Nat) :
    Nat → Nat → List Nat × Bool
  | _, 0 => ([], true)
  | i, bufLen + 1 =>
    if samples.length < i + ch then ([], false)
    else
      let r := multiChannelStreamer samples ch (i + ch) bufLen
      (i :: r.1, r.2)

/-- Repeated calls of the streamer with a fixed buffer of `B` frames until
it reports `ok = false`, as `wav.Encode` drives a beep streamer; after a
full call the closure state has advanced by `B * ch`.  `fuel` bounds the
number of calls (any `fuel ≥ samples.length` is enough, as the drain
theorem's hypotheses require). -/
def streamerDrain (samples : List ℚ) (ch B : Nat) : Nat → Nat → List Nat
  | 0, _ => []
  | fuel + 1, i =>
    let r := multiChannelStreamer samples ch i B
    if r.2 then r.1 ++ streamerDrain samples ch B fuel (i + B * ch) else r.1

/-- Executable check that every emitted frame start index leaves room for a
complete frame of `ch` samples inside the input of length `len`. -/
def framesComplete (starts : List Nat) (ch len : Nat) : Bool :=
  starts.all fun s => decide (s + ch ≤ len)

/-- Executable check that every sample of a buffer is a valid `int16`. -/
def allInt16 (buf : List Int) : Bool :=
  buf.all fun x => decide (-32768 ≤ x ∧ x ≤ 32767)

/-- Executable form of the negotiation example's device: it supports
exactly the rates 48000 and 16000. -/
def exampleSupport (rate : ℚ) : Bool :=
  decide (rate = 48000) || decide (rate = 16000)

/-! ## Helper lemmas -/

theorem ratTrunc_intCast (n : Int) : ratTrunc (n : ℚ) = n := by
  simp [ratTrunc, Rat.num_intCast, Rat.den_intCast, Int.tdiv_one]

theorem writeSample_one (s : Int) : writeSample s 1 = wrap16 s := by
  simp only [writeSample, mul_one, ratTrunc_intCast]

theorem wrap16_eq_self (n : Int) (h1 : -32768 ≤ n) (h2 : n ≤ 32767) :
    wrap16 n = n := by
  simp only [wrap16]; omega

/-- In the mono case the recording loop writes every buffer sample once and
never touches the byte counter. -/
theorem processBlock_mono (volume : ℚ) (buf : List Int) :
    processBlock 1 volume buf = (buf.map fun s => writeSample s volume, 0) := by
  induction buf with
  | nil => simp [processBlock]
  | cons s rest ih => simp [processBlock, ih]

theorem writeWavHeader_length (sr ch : Nat) (bits : Int) (ds : Nat) :
    (writeWavHeader sr ch bits ds).length = 44 := by
  simp [writeWavHeader, le16, le32]

theorem readLE32_header_4 (sr ch : Nat) (bits : Int) (ds : Nat) :
    readLE32 (writeWavHeader sr ch bits ds) 4 = (36 + ds) % 4294967296 := by
  simp [writeWavHeader, le16, le32, readLE32, List.getD_cons_succ,
    List.getD_cons_zero]
  omega

theorem readLE16_header_20 (sr ch : Nat) (bits : Int) (ds : Nat) :
    readLE16 (writeWavHeader sr ch bits ds) 20 = 1 := by
  simp [writeWavHeader, le16, le32, readLE16, List.getD_cons_succ,
    List.getD_cons_zero]

theorem readLE16_header_22 (sr ch : Nat) (bits : Int) (ds : Nat) :
    readLE16 (writeWavHeader sr ch bits ds) 22 = ch % 65536 := by
  simp [writeWavHeader, le16, le32, readLE16, List.getD_cons_succ,
    List.getD_cons_zero]
  omega

theorem readLE32_header_24 (sr ch : Nat) (bits : Int) (ds : Nat) :
    readLE32 (writeWavHeader sr ch bits ds) 24 = sr % 4294967296 := by
  simp [writeWavHeader, le16, le32, readLE32, List.getD_cons_succ,
    List.getD_cons_zero]
  omega

theorem readLE32_header_28 (sr ch : Nat) (bits : Int) (ds : Nat) :
    readLE32 (writeWavHeader sr ch bits ds) 28 =
      sr * (ch * (bits % 65536).toNat % 65536 / 8) % 4294967296 := by
  simp [writeWavHeader, le16, le32, readLE32, List.getD_cons_succ,
    List.getD_cons_zero]
  omega

theorem readLE16_header_32 (sr ch : Nat) (bits : Int) (ds : Nat) :
    readLE16 (writeWavHeader sr ch bits ds) 32 =
      ch * (bits % 65536).toNat % 65536 / 8 := by
  simp [writeWavHeader, le16, le32, readLE16, List.getD_cons_succ,
    List.getD_cons_zero]
  omega

theorem readLE16_header_34 (sr ch : Nat) (bits : Int) (ds : Nat) :
    readLE16 (writeWavHeader sr ch bits ds) 34 = (bits % 65536).toNat := by
  simp [writeWavHeader, le16, le32, readLE16, List.getD_cons_succ,
    List.getD_cons_zero]
  omega

theorem readLE32_header_40 (sr ch : Nat) (bits : Int) (ds : Nat) :
    readLE32 (writeWavHeader sr ch bits ds) 40 = ds % 4294967296 := by
  simp [writeWavHeader, le16, le32, readLE32, List.getD_cons_succ,
    List.getD_cons_zero]
  omega

/-! ## C1 and C3 and C8 -/

/-- C1: the gain-and-clamp transform of `part_000` keeps every output in
`[-1, 1]` and maps the maximum positive sample at gain 2.0 to exactly 1 —
but the `writeSample` path of `main.go` (whose comment also promises a
clamp) does not: generalized over the gain, the maximum positive sample at
gain 2.0 comes out as the overflow-wrapped value −2, not the maximum value
32767 (the `int16` equivalent of 1.0).  The claim is therefore right about
the intended transform and `main.go`'s code is the slip. -/
theorem clamp_invariant_and_writeSample_overflow :
    (∀ (s : Int) (g : ℚ), -1 ≤ clampSample s g ∧ clampSample s g ≤ 1) ∧
    clampSample 32767 2 = 1 ∧
    writeSample 32767 2 = -2 ∧ writeSample 32767 2 ≠ 32767 := by
  refine ⟨fun s g => ?_, ?_, ?_, ?_⟩
  · simp only [clampSample]
    split_ifs with h1 h2
    · norm_num
    · norm_num
    · push_neg at h1 h2
      exact ⟨h2, h1⟩
  · norm_num [clampSample, int16ToFloat64]
  · rw [show ((2 : ℚ)) = ((2 : Int) : ℚ) by norm_num, writeSample]
    rw [← Int.cast_mul, ratTrunc_intCast]
    decide
  · rw [show ((2 : ℚ)) = ((2 : Int) : ℚ) by norm_num, writeSample]
    rw [← Int.cast_mul, ratTrunc_intCast]
    decide

/-- C3: negotiation returns the earliest-listed candidate the device
supports — whatever unsupported prefix precedes it and whatever candidates
follow it. -/
theorem findWorkingSampleRate_first_supported (isSup : ℚ → Bool)
    (pre : List ℚ) (rate : ℚ) (post : List ℚ)
    (hpre : noneSupported isSup pre = true) (hrate : isSup rate = true) :
    findWorkingSampleRate isSup (pre ++ rate :: post) = some rate := by
  induction pre with
  | nil => simp [findWorkingSampleRate, hrate]
  | cons p ps ih =>
    simp only [noneSupported, List.all_cons, Bool.and_eq_true,
      Bool.not_eq_true'] at hpre
    simp only [List.cons_append, findWorkingSampleRate, hpre.1]
    simp only [Bool.false_eq_true, if_false]
    exact ih ((by simp [noneSupported, hpre.2]))

/-- Witness for C3 at the spec's example: candidates
`[44100, 48000, 16000]` against a device supporting exactly
`{48000, 16000}` negotiate to 48000 (first match in list order). -/
theorem findWorkingSampleRate_first_supported_witness :
    noneSupported exampleSupport [44100] = true ∧
    exampleSupport 48000 = true ∧
    findWorkingSampleRate exampleSupport [44100, 48000, 16000] = some 48000 :=
  ⟨by decide, by decide,
    findWorkingSampleRate_first_supported exampleSupport [44100] 48000 [16000]
      (by decide) (by decide)⟩

/-- C8: negotiation reports the distinguished no-supported-rate failure
(the `(0, os.ErrInvalid)` return, modelled as `none`) exactly when the
device supports none of the listed candidates — and that is the only
condition under which it errors. -/
theorem findWorkingSampleRate_none_iff (isSup : ℚ → Bool) (rates : List ℚ) :
    findWorkingSampleRate isSup rates = none ↔
      ∀ rate ∈ rates, isSup rate = false := by
  induction rates with
  | nil => simp [findWorkingSampleRate]
  | cons r rs ih =>
    by_cases h : isSup r
    · simp [findWorkingSampleRate, h]
    · simp only [Bool.not_eq_true] at h
      simp [findWorkingSampleRate, h, ih]

theorem length_le32 (n : Nat) : (le32 n).length = 4 := rfl

theorem writeBytesAt_length (file bytes : List Nat) (pos : Nat)
    (h : pos + bytes.length ≤ file.length) :
    (writeBytesAt file pos bytes).length = file.length := by
  simp [writeBytesAt, List.length_take, List.length_drop]
  omega

/-- Reading an overwritten file: positions inside the written span read the
new bytes, every other position reads the old file. -/
theorem writeBytesAt_getD (file bytes : List Nat) (pos j : Nat)
    (hpos : pos ≤ file.length) :
    (writeBytesAt file pos bytes).getD j 0 =
      if pos ≤ j ∧ j < pos + bytes.length then bytes.getD (j - pos) 0
      else file.getD j 0 := by
  have hlt : (List.take pos file).length = pos := by
    simp [List.length_take]; omega
  have hlt2 : (List.take pos file ++ bytes).length = pos + bytes.length := by
    simp [hlt]
  simp only [writeBytesAt, List.getD_eq_getElem?_getD]
  rcases Nat.lt_or_ge j pos with h1 | h1
  · rw [List.getElem?_append_left (by omega), List.getElem?_append_left (by omega),
      List.getElem?_take, if_pos h1, if_neg (by omega)]
  · by_cases h2 : j < pos + bytes.length
    · rw [List.getElem?_append_left (by omega),
        List.getElem?_append_right (by omega), hlt, if_pos ⟨h1, h2⟩]
    · rw [List.getElem?_append_right (by omega), hlt2, List.getElem?_drop,
        if_neg (by omega)]
      congr 2
      omega

theorem updateWavHeader_eq (file : List Nat) (ds : Nat) :
    updateWavHeader file ds =
      writeBytesAt (writeBytesAt file 4 (le32 ((36 + ds) % 4294967296))) 40
        (le32 (ds % 4294967296)) := rfl

/-! ## C4 -/

/-- Counterexample to C4 as stated: the parameters are fixed-width machine
integers, so at the representable input `dataSize = 2^32 - 1` the RIFF
ChunkSize field wraps modulo `2^32` and holds 35, not `36 + dataSize`. -/
theorem writeWavHeader_chunkSize_wraps :
    readLE32 (writeWavHeader 16000 1 16 4294967295) 4 = 35 ∧
    (36 + 4294967295 : Nat) ≠ 35 :=
  ⟨by decide, by decide⟩

/-- C4 as amended: provided no field overflows its fixed width
(`36 + dataSize < 2^32`, `0 ≤ bitsPerSample < 2^16`,
`channelCount * bitsPerSample < 2^16` and `sampleRate * blockAlign < 2^32`),
encoding then decoding the 44-byte header returns the same four values, and
the encoded header satisfies `ChunkSize = 36 + dataSize`,
`Subchunk2Size = dataSize`, `blockAlign = channelCount * bitsPerSample / 8`,
`ByteRate = sampleRate * blockAlign`, `AudioFormat = 1`, with the four
ASCII tags RIFF/WAVE/fmt-space/data at offsets 0, 8, 12, 36. -/
theorem writeWavHeader_roundtrip (sampleRate numChannels : Nat)
    (bitsPerSample : Int) (dataSize : Nat)
    (hsr : sampleRate < 4294967296) (hch : numChannels < 65536)
    (hb0 : 0 ≤ bitsPerSample) (hb1 : bitsPerSample < 65536)
    (hds : 36 + dataSize < 4294967296)
    (hba : numChannels * bitsPerSample.toNat < 65536)
    (hbr : sampleRate * (numChannels * bitsPerSample.toNat / 8) < 4294967296) :
    decodeWavHeader (writeWavHeader sampleRate numChannels bitsPerSample dataSize) =
      (sampleRate, numChannels, bitsPerSample.toNat, dataSize) ∧
    readLE32 (writeWavHeader sampleRate numChannels bitsPerSample dataSize) 4 =
      36 + dataSize ∧
    readLE32 (writeWavHeader sampleRate numChannels bitsPerSample dataSize) 40 =
      dataSize ∧
    readLE16 (writeWavHeader sampleRate numChannels bitsPerSample dataSize) 32 =
      numChannels * bitsPerSample.toNat / 8 ∧
    readLE32 (writeWavHeader sampleRate numChannels bitsPerSample dataSize) 28 =
      sampleRate * (numChannels * bitsPerSample.toNat / 8) ∧
    readLE16 (writeWavHeader sampleRate numChannels bitsPerSample dataSize) 20 =
      1 ∧
    (writeWavHeader sampleRate numChannels bitsPerSample dataSize).take 4 =
      [82, 73, 70, 70] ∧
    ((writeWavHeader sampleRate numChannels bitsPerSample dataSize).drop 8).take 4 =
      [87, 65, 86, 69] ∧
    ((writeWavHeader sampleRate numChannels bitsPerSample dataSize).drop 12).take 4 =
      [102, 109, 116, 32] ∧
    ((writeWavHeader sampleRate numChannels bitsPerSample dataSize).drop 36).take 4 =
      [100, 97, 116, 97] ∧
    (writeWavHeader sampleRate numChannels bitsPerSample dataSize).length = 44 := by
  have hbps : (bitsPerSample % 65536).toNat = bitsPerSample.toNat := by omega
  have hba2 : numChannels * bitsPerSample.toNat % 65536 =
      numChannels * bitsPerSample.toNat := Nat.mod_eq_of_lt hba
  refine ⟨?_, ?_, ?_, ?_, ?_, readLE16_header_20 _ _ _ _, ?_, ?_, ?_, ?_,
    writeWavHeader_length _ _ _ _⟩
  · simp only [decodeWavHeader, readLE32_header_24, readLE16_header_22,
      readLE16_header_34, readLE32_header_40, hbps, Prod.mk.injEq]
    exact ⟨Nat.mod_eq_of_lt hsr, Nat.mod_eq_of_lt hch, trivial,
      Nat.mod_eq_of_lt (by omega)⟩
  · rw [readLE32_header_4]; omega
  · rw [readLE32_header_40]; omega
  · rw [readLE16_header_32, hbps, hba2]
  · rw [readLE32_header_28, hbps, hba2, Nat.mod_eq_of_lt hbr]
  · simp [writeWavHeader, le16, le32]
  · simp [writeWavHeader, le16, le32]
  · simp [writeWavHeader, le16, le32]
  · simp [writeWavHeader, le16, le32]

/-- Witness for C4 at the program's own parameters (16000 Hz, mono, 16-bit)
with a 3072-byte payload. -/
theorem writeWavHeader_roundtrip_witness :
    ((16000 : Nat) < 4294967296 ∧ (1 : Nat) < 65536 ∧ (0 : Int) ≤ 16 ∧
      (16 : Int) < 65536 ∧ (36 + 3072 : Nat) < 4294967296 ∧
      1 * (16 : Int).toNat < 65536 ∧
      16000 * (1 * (16 : Int).toNat / 8) < 4294967296) ∧
    decodeWavHeader (writeWavHeader 16000 1 16 3072) = (16000, 1, 16, 3072) ∧
    readLE32 (writeWavHeader 16000 1 16 3072) 4 = 36 + 3072 ∧
    readLE32 (writeWavHeader 16000 1 16 3072) 40 = 3072 :=
  ⟨⟨by decide, by decide, by decide, by decide, by decide, by decide, by decide⟩,
    ((writeWavHeader_roundtrip 16000 1 16 3072 (by decide) (by decide)
      (by decide) (by decide) (by decide) (by decide) (by decide))).1,
    ((writeWavHeader_roundtrip 16000 1 16 3072 (by decide) (by decide)
      (by decide) (by decide) (by decide) (by decide) (by decide))).2.1,
    ((writeWavHeader_roundtrip 16000 1 16 3072 (by decide) (by decide)
      (by decide) (by decide) (by decide) (by decide) (by decide))).2.2.1⟩

/-! ## C5 and C9 -/

theorem readLE32_updateWavHeader_4 (file : List Nat) (ds : Nat)
    (hlen : 44 ≤ file.length) :
    readLE32 (updateWavHeader file ds) 4 = (36 + ds) % 4294967296 := by
  have hinner : (writeBytesAt file 4 (le32 ((36 + ds) % 4294967296))).length =
      file.length :=
    writeBytesAt_length _ _ _ (by rw [length_le32]; omega)
  rw [updateWavHeader_eq]
  simp only [readLE32]
  rw [writeBytesAt_getD _ _ _ 4 (by omega), writeBytesAt_getD _ _ _ 5 (by omega),
    writeBytesAt_getD _ _ _ 6 (by omega), writeBytesAt_getD _ _ _ 7 (by omega)]
  simp only [length_le32]
  rw [if_neg (by omega), if_neg (by omega), if_neg (by omega), if_neg (by omega)]
  rw [writeBytesAt_getD _ _ _ 4 (by omega), writeBytesAt_getD _ _ _ 5 (by omega),
    writeBytesAt_getD _ _ _ 6 (by omega), writeBytesAt_getD _ _ _ 7 (by omega)]
  simp only [length_le32]
  rw [if_pos (by omega), if_pos (by omega), if_pos (by omega), if_pos (by omega)]
  simp only [le32, show (4 : Nat) - 4 = 0 from rfl, show (5 : Nat) - 4 = 1 from rfl,
    show (6 : Nat) - 4 = 2 from rfl, show (7 : Nat) - 4 = 3 from rfl,
    List.getD_cons_zero, List.getD_cons_succ]
  omega

theorem readLE32_updateWavHeader_40 (file : List Nat) (ds : Nat)
    (hlen : 44 ≤ file.length) :
    readLE32 (updateWavHeader file ds) 40 = ds % 4294967296 := by
  have hinner : (writeBytesAt file 4 (le32 ((36 + ds) % 4294967296))).length =
      file.length :=
    writeBytesAt_length _ _ _ (by rw [length_le32]; omega)
  rw [updateWavHeader_eq]
  simp only [readLE32]
  rw [writeBytesAt_getD _ _ _ 40 (by omega), writeBytesAt_getD _ _ _ 41 (by omega),
    writeBytesAt_getD _ _ _ 42 (by omega), writeBytesAt_getD _ _ _ 43 (by omega)]
  simp only [length_le32]
  rw [if_pos (by omega), if_pos (by omega), if_pos (by omega), if_pos (by omega)]
  simp only [le32, show (40 : Nat) - 40 = 0 from rfl, show (41 : Nat) - 40 = 1 from rfl,
    show (42 : Nat) - 40 = 2 from rfl, show (43 : Nat) - 40 = 3 from rfl,
    List.getD_cons_zero, List.getD_cons_succ]
  omega

/-- C5: on any session file (at least the 44-byte header) and any byte
count that fits the 32-bit field, finalization is exactly the two
seek-and-overwrite operations of the claim — the little-endian 32-bit value
`36 + dataSize` at byte offset 4 and the little-endian 32-bit value
`dataSize` at byte offset 40, in that order and nothing else — and the
patched file reads back those two values at those offsets. -/
theorem updateWavHeader_two_patches (file : List Nat) (dataSize : Nat)
    (hds : 36 + dataSize < 4294967296) (hlen : 44 ≤ file.length) :
    updateWavHeaderOps dataSize =
      [⟨4, le32 (36 + dataSize)⟩, ⟨40, le32 dataSize⟩] ∧
    updateWavHeader file dataSize =
      writeBytesAt (writeBytesAt file 4 (le32 (36 + dataSize))) 40
        (le32 dataSize) ∧
    readLE32 (updateWavHeader file dataSize) 4 = 36 + dataSize ∧
    readLE32 (updateWavHeader file dataSize) 40 = dataSize := by
  have hm1 : (36 + dataSize) % 4294967296 = 36 + dataSize := Nat.mod_eq_of_lt hds
  have hm2 : dataSize % 4294967296 = dataSize := Nat.mod_eq_of_lt (by omega)
  refine ⟨?_, ?_, ?_, ?_⟩
  · simp [updateWavHeaderOps, hm1, hm2]
  · rw [updateWavHeader_eq, hm1, hm2]
  · rw [readLE32_updateWavHeader_4 file dataSize hlen, hm1]
  · rw [readLE32_updateWavHeader_40 file dataSize hlen, hm2]

/-- Witness for C5: finalizing the program's own placeholder header with a
3072-byte payload count. -/
theorem updateWavHeader_two_patches_witness :
    (36 + 3072 : Nat) < 4294967296 ∧
    44 ≤ (writeWavHeader 16000 1 16 0).length ∧
    (updateWavHeaderOps 3072 =
        [⟨4, le32 (36 + 3072)⟩, ⟨40, le32 3072⟩] ∧
      updateWavHeader (writeWavHeader 16000 1 16 0) 3072 =
        writeBytesAt (writeBytesAt (writeWavHeader 16000 1 16 0) 4
          (le32 (36 + 3072))) 40 (le32 3072) ∧
      readLE32 (updateWavHeader (writeWavHeader 16000 1 16 0) 3072) 4 =
        36 + 3072 ∧
      readLE32 (updateWavHeader (writeWavHeader 16000 1 16 0) 3072) 40 = 3072) :=
  ⟨by decide, by decide,
    updateWavHeader_two_patches (writeWavHeader 16000 1 16 0) 3072
      (by decide) (by decide)⟩

/-- C9: finalization rewrites the header size fields in place and nothing
else — the file's length is unchanged and every byte outside offsets 4–7
and 40–43 is untouched. -/
theorem updateWavHeader_frame (file : List Nat) (dataSize j : Nat)
    (hlen : 44 ≤ file.length) (h1 : j < 4 ∨ 8 ≤ j) (h2 : j < 40 ∨ 44 ≤ j) :
    (updateWavHeader file dataSize).length = file.length ∧
    (updateWavHeader file dataSize).getD j 0 = file.getD j 0 := by
  have hinner : (writeBytesAt file 4 (le32 ((36 + dataSize) % 4294967296))).length =
      file.length :=
    writeBytesAt_length _ _ _ (by rw [length_le32]; omega)
  constructor
  · rw [updateWavHeader_eq,
      writeBytesAt_length _ _ _ (by rw [length_le32]; omega)]
    exact hinner
  · rw [updateWavHeader_eq, writeBytesAt_getD _ _ _ _ (by omega)]
    rw [if_neg (by simp only [length_le32]; omega)]
    rw [writeBytesAt_getD _ _ _ _ (by omega)]
    rw [if_neg (by simp only [length_le32]; omega)]

/-! ## C2 -/

/-- A mono session's fold: every block contributes twice its length in
appended bytes and contributes nothing to the `totalBytesWritten` counter,
whatever the accumulator. -/
theorem recordSession_mono_foldl (volume : ℚ) (blocks : List (List Int))
    (a b : Nat) :
    blocks.foldl (fun acc buffer =>
        let r := processBlock 1 volume buffer
        (acc.1 + 2 * r.1.length, acc.2 + r.2)) (a, b) =
      (a + 2 * (blocks.map List.length).sum, b) := by
  induction blocks generalizing a b with
  | nil => simp
  | cons hd tl ih =>
    have hstep : (let r := processBlock 1 volume hd;
        ((a, b).1 + 2 * r.1.length, (a, b).2 + r.2)) = (a + 2 * hd.length, b) := by
      simp [processBlock_mono]
    rw [List.foldl_cons, hstep, ih]
    simp only [List.map_cons, List.sum_cons, Prod.mk.injEq]
    exact ⟨by omega, trivial⟩

theorem recordSession_mono (volume : ℚ) (blocks : List (List Int)) :
    recordSession 1 volume blocks = (2 * (blocks.map List.length).sum, 0) := by
  simpa [recordSession] using recordSession_mono_foldl volume blocks 0 0

/-- C2: the end-to-end mono scenario — 3 blocks of 512 int16 frames at gain
1.0, then stop — appends 3 × 512 × 2 = 3072 sample bytes to the file, but
because the mono branch of the recording loop never increments
`totalBytesWritten`, the counter handed to `updateWavHeader` is 0 and the
finalized header's dataSize field reads 0, not the 3072 the claim (and the
spec's end-to-end scenario) require. -/
theorem mono_session_dataSize_zero :
    (recordSession 1 1 (List.replicate 3 (List.replicate 512 (0 : Int)))).1 =
      3072 ∧
    (recordSession 1 1 (List.replicate 3 (List.replicate 512 (0 : Int)))).2 =
      0 ∧
    readLE32
      (sessionFile 16000 1 1 (List.replicate 3 (List.replicate 512 (0 : Int))))
      40 = 0 ∧
    (3072 : Nat) ≠ 0 := by
  have hsess := recordSession_mono 1 (List.replicate 3 (List.replicate 512 (0 : Int)))
  have hsum : ((List.replicate 3 (List.replicate 512 (0 : Int))).map
      List.length).sum = 1536 := by
    rw [List.map_replicate, List.length_replicate]
    decide
  refine ⟨?_, ?_, ?_, by omega⟩
  · rw [hsess]; rw [hsum]
  · rw [hsess]
  · have hlen : 44 ≤ (writeWavHeader 16000 1 16 0 ++
        ((((List.replicate 3 (List.replicate 512 (0 : Int))).map fun buffer =>
          (processBlock 1 1 buffer).1).flatten).map int16Bytes).flatten).length := by
      rw [List.length_append, writeWavHeader_length]; omega
    exact (readLE32_updateWavHeader_40 _
      ((recordSession 1 1 (List.replicate 3 (List.replicate 512 (0 : Int)))).2)
      hlen).trans (by rw [hsess]; rfl)

/-! ## C10 -/

/-- With two or more configured channels every complete frame contributes
exactly two `int16` writes, so a block of `ch * m` samples produces `2 * m`
written samples. -/
theorem processBlock_length_frames (ch : Nat) (volume : ℚ) (hch : 2 ≤ ch) :
    ∀ (m : Nat) (buf : List Int), buf.length = ch * m →
      (processBlock ch volume buf).1.length = 2 * m := by
  intro m
  induction m with
  | zero =>
    intro buf hb
    have hnil : buf = [] := List.eq_nil_of_length_eq_zero (by omega)
    subst hnil
    simp [processBlock]
  | succ m ih =>
    intro buf hb
    match buf with
    | [] => exact absurd hb (by simp; omega)
    | s :: rest =>
      rcases Nat.lt_or_ge ch 3 with h3 | h3
      · have hch2 : ch = 2 := by omega
        subst hch2
        have hrest : (rest.drop 1).length = 2 * m := by
          simp only [List.length_cons] at hb
          simp [List.length_drop]
          omega
        have ih2 := ih (rest.drop 1) hrest
        rw [List.drop_one] at ih2
        simp [processBlock, ih2]
        omega
      · obtain ⟨k, rfl⟩ : ∃ k, ch = k + 3 := ⟨ch - 3, by omega⟩
        rw [Nat.mul_succ] at hb
        have hrest : (rest.drop (k + 2)).length = (k + 3) * m := by
          simp only [List.length_cons] at hb
          simp [List.length_drop]
          omega
        have ih3 := ih (rest.drop (k + 2)) hrest
        simp [processBlock, ih3]
        omega

/-- C10: whenever the configured channel count is at least 2, the recording
loop of `main.go` writes exactly two 16-bit samples per input frame (both
in the `case 2` and in the `default` downmix branch), while the header's
NumChannels field is written as the configured count itself — so a
configured count above 2 yields a header that declares more channels than
the two samples per frame the data stream actually carries. -/
theorem multichannel_two_samples_per_frame (ch sr ds : Nat) (bits : Int)
    (volume : ℚ) (buf : List Int) (frames : Nat)
    (hch2 : 2 ≤ ch) (hch16 : ch < 65536) (hlen : buf.length = ch * frames) :
    (processBlock ch volume buf).1.length = 2 * frames ∧
    readLE16 (writeWavHeader sr ch bits ds) 22 = ch :=
  ⟨processBlock_length_frames ch volume hch2 frames buf hlen,
    by rw [readLE16_header_22]; exact Nat.mod_eq_of_lt hch16⟩

/-- Witness for C10 at four configured channels and two frames: 4 samples
written (2 per frame), header NumChannels field 4. -/
theorem multichannel_two_samples_per_frame_witness :
    ((2 : Nat) ≤ 4 ∧ (4 : Nat) < 65536 ∧
      (List.replicate 8 (0 : Int)).length = 4 * 2) ∧
    ((processBlock 4 1 (List.replicate 8 (0 : Int))).1.length = 2 * 2 ∧
      readLE16 (writeWavHeader 16000 4 16 0) 22 = 4) :=
  ⟨⟨by decide, by decide, by decide⟩,
    multichannel_two_samples_per_frame 4 16000 0 16 1
      (List.replicate 8 (0 : Int)) 2 (by decide) (by decide) (by decide)⟩

/-! ## C6 -/

theorem take_eq_range_map {α : Type} (l : List α) (d : α) (n : Nat)
    (h : n ≤ l.length) :
    l.take n = (List.range n).map fun j => l.getD j d := by
  apply List.ext_getElem
  · simp [List.length_take, List.length_range]
    omega
  · intro j h1 h2
    have hj : j < n := by simp [List.length_take] at h1; omega
    have hjl : j < l.length := by omega
    rw [List.getElem_take, List.getElem_map, List.getElem_range,
      List.getD_eq_getElem?_getD, List.getElem?_eq_getElem hjl]
    rfl

theorem getD_drop {α : Type} (l : List α) (d : α) (i j : Nat) :
    (l.drop i).getD j d = l.getD (i + j) d := by
  rw [List.getD_eq_getElem?_getD, List.getD_eq_getElem?_getD, List.getElem?_drop]

/-- Truncating division of a sum of int16 values by the element count stays
inside the int16 range. -/
theorem tdiv_sum_int16_bounds (S : Int) (ch : Nat) (hch : 0 < ch)
    (hlo : -(32768 * (ch : Int)) ≤ S) (hhi : S ≤ 32767 * (ch : Int)) :
    -32768 ≤ Int.tdiv S (ch : Int) ∧ Int.tdiv S (ch : Int) ≤ 32767 := by
  have hch0 : (0 : Int) < (ch : Int) := by exact_mod_cast hch
  rcases le_or_lt 0 S with hS | hS
  · rw [Int.tdiv_eq_ediv hS (le_of_lt hch0)]
    constructor
    · exact le_trans (by omega) (Int.ediv_nonneg hS (le_of_lt hch0))
    · calc S / (ch : Int) ≤ 32767 * (ch : Int) / (ch : Int) :=
            Int.ediv_le_ediv hch0 hhi
        _ = 32767 := Int.mul_ediv_cancel _ (by omega)
  · have hS' : (0 : Int) ≤ -S := by omega
    have hneg : Int.tdiv S (ch : Int) = -Int.tdiv (-S) (ch : Int) := by
      rw [← Int.neg_tdiv, neg_neg]
    rw [hneg, Int.tdiv_eq_ediv hS' (le_of_lt hch0)]
    have hb : -S / (ch : Int) ≤ 32768 := by
      calc -S / (ch : Int) ≤ 32768 * (ch : Int) / (ch : Int) :=
            Int.ediv_le_ediv hch0 (by omega)
        _ = 32768 := Int.mul_ediv_cancel _ (by omega)
    have hnn : (0 : Int) ≤ -S / (ch : Int) := Int.ediv_nonneg hS' (le_of_lt hch0)
    omega

/-- Counterexample to C6 as stated on the integer path of `main.go`: the
4-channel frame `[1, 0, 0, 0]` is downmixed with truncating integer
division, so both written samples are 0, while the arithmetic mean of the
frame's samples is 1/4 ≠ 0. -/
theorem downmix_mean_counterexample :
    (processBlock 4 1 [1, 0, 0, 0]).1 = [0, 0] ∧
    ((1 : ℚ) + 0 + 0 + 0) / 4 ≠ ((0 : Int) : ℚ) := by
  constructor
  · simp [processBlock, downmixAvg, List.range_succ, writeSample_one]
    decide
  · norm_num

/-- C6 as amended: on a complete frame with more than two channels, the
float streamer of `part_000` emits the exact arithmetic mean of the frame's
samples on both output channels, while the integer path of `main.go` emits
(twice) the frame's sample sum divided by the channel count with Go's
truncating integer division — the integer arithmetic mean, which can
differ from the exact mean by a fraction below one sample unit. -/
theorem downmix_mean_policy (samples : List ℚ) (ch i : Nat) (buf : List Int)
    (hch : 3 ≤ ch) (hframe : i + ch ≤ samples.length) (hbuf : ch ≤ buf.length)
    (hrange : allInt16 buf = true) :
    mkFrame samples ch i =
      (((samples.drop i).take ch).sum / (ch : ℚ),
        ((samples.drop i).take ch).sum / (ch : ℚ)) ∧
    downmixAvg buf ch = Int.tdiv (buf.take ch).sum (ch : Int) := by
  obtain ⟨k, rfl⟩ : ∃ k, ch = k + 3 := ⟨ch - 3, by omega⟩
  constructor
  · have hsum : ((List.range (k + 3)).map fun k' =>
        if i + k' < samples.length then samples.getD (i + k') 0 else 0).sum =
        ((samples.drop i).take (k + 3)).sum := by
      rw [take_eq_range_map (samples.drop i) 0 (k + 3)
        (by simp [List.length_drop]; omega)]
      congr 1
      apply List.map_congr_left
      intro a ha
      have ha' : a < k + 3 := List.mem_range.mp ha
      rw [if_pos (by omega), getD_drop]
    simp only [mkFrame]
    rw [hsum]
  · have hsum : ((List.range (k + 3)).map fun k' =>
        if k' < buf.length then buf.getD k' 0 else 0).sum =
        (buf.take (k + 3)).sum := by
      rw [take_eq_range_map buf 0 (k + 3) hbuf]
      congr 1
      apply List.map_congr_left
      intro a ha
      have ha' : a < k + 3 := List.mem_range.mp ha
      rw [if_pos (by omega)]
    have hmem : ∀ x ∈ buf.take (k + 3), -32768 ≤ x ∧ x ≤ 32767 := by
      intro x hx
      have hxb : x ∈ buf := List.mem_of_mem_take hx
      have := List.all_eq_true.mp hrange x hxb
      exact of_decide_eq_true this
    have hlen : (buf.take (k + 3)).length = k + 3 := by
      simp [List.length_take]; omega
    have hlo : -(32768 * ((k + 3 : Nat) : Int)) ≤ (buf.take (k + 3)).sum := by
      have := List.card_nsmul_le_sum (buf.take (k + 3)) (-32768 : Int)
        (fun x hx => (hmem x hx).1)
      rw [hlen] at this
      simpa [nsmul_eq_mul, mul_comm] using this
    have hhi : (buf.take (k + 3)).sum ≤ 32767 * ((k + 3 : Nat) : Int) := by
      have := List.sum_le_card_nsmul (buf.take (k + 3)) (32767 : Int)
        (fun x hx => (hmem x hx).2)
      rw [hlen] at this
      simpa [nsmul_eq_mul, mul_comm] using this
    have hbounds := tdiv_sum_int16_bounds (buf.take (k + 3)).sum (k + 3)
      (by omega) hlo hhi
    simp only [downmixAvg]
    rw [hsum, wrap16_eq_self _ hbounds.1 hbounds.2]

/-- Witness for C6 at the spec's example frame `[0.2, 0.4, 0.6, 0.8]`
(whose exact mean is 0.5) and the integer frame `[1, 0, 0, 0]` (whose
truncated integer mean is 0). -/
theorem downmix_mean_policy_witness :
    ((3 : Nat) ≤ 4 ∧ 0 + 4 ≤ ([1/5, 2/5, 3/5, 4/5] : List ℚ).length ∧
      (4 : Nat) ≤ ([1, 0, 0, 0] : List Int).length ∧
      allInt16 [1, 0, 0, 0] = true) ∧
    (mkFrame [1/5, 2/5, 3/5, 4/5] 4 0 =
        (((([1/5, 2/5, 3/5, 4/5] : List ℚ).drop 0).take 4).sum / ((4 : Nat) : ℚ),
          ((([1/5, 2/5, 3/5, 4/5] : List ℚ).drop 0).take 4).sum / ((4 : Nat) : ℚ)) ∧
      downmixAvg [1, 0, 0, 0] 4 =
        Int.tdiv (([1, 0, 0, 0] : List Int).take 4).sum ((4 : Nat) : Int)) ∧
    mkFrame [1/5, 2/5, 3/5, 4/5] 4 0 = (1/2, 1/2) ∧
    Int.tdiv (([1, 0, 0, 0] : List Int).take 4).sum ((4 : Nat) : Int) = 0 :=
  ⟨⟨by decide, by decide, by decide, by decide⟩,
    downmix_mean_policy [1/5, 2/5, 3/5, 4/5] 4 0 [1, 0, 0, 0]
      (by decide) (by decide) (by decide) (by decide),
    by simp [mkFrame, List.range_succ]; norm_num,
    by decide⟩

/-! ## C7 -/

/-- Characterization of one streamer call: starting at closure state `i`
with a buffer of `L` frames, it emits the start indices of the next
`min L ((samples.length - i) / ch)` complete frames and reports `ok`
exactly when the whole buffer was filled. -/
theorem multiChannelStreamer_call (samples : List ℚ) (ch : Nat) (hch : 1 ≤ ch) :
    ∀ (L i : Nat), multiChannelStreamer samples ch i L =
      ((List.range (min L ((samples.length - i) / ch))).map fun j => i + j * ch,
        decide (L ≤ (samples.length - i) / ch)) := by
  intro L
  induction L with
  | zero => intro i; simp [multiChannelStreamer]
  | succ L ih =>
    intro i
    by_cases hlt : samples.length < i + ch
    · have h0 : (samples.length - i) / ch = 0 := Nat.div_eq_of_lt (by omega)
      simp [multiChannelStreamer, hlt, h0]
    · push_neg at hlt
      have hq : 1 ≤ (samples.length - i) / ch :=
        (Nat.one_le_div_iff (by omega)).mpr (by omega)
      have halign : samples.length - (i + ch) = samples.length - i - ch := by
        omega
      have hstep : (samples.length - (i + ch)) / ch =
          (samples.length - i) / ch - 1 := by
        have hsub := Nat.div_eq_sub_div (show 0 < ch by omega)
          (show ch ≤ samples.length - i by omega)
        rw [halign]
        omega
      simp only [multiChannelStreamer, if_neg (by omega : ¬ samples.length < i + ch),
        ih (i + ch), hstep]
      have hmin : min (L + 1) ((samples.length - i) / ch) =
          min L ((samples.length - i) / ch - 1) + 1 := by omega
      rw [hmin, List.range_succ_eq_map, List.map_cons, List.map_map]
      refine Prod.ext ?_ ?_
      · simp only [Prod.fst]
        rw [show i + 0 * ch = i from by ring]
        refine congrArg (List.cons i) (List.map_congr_left fun a ha => ?_)
        simp [Function.comp, Nat.succ_eq_add_one]
        ring
      · simp only [Prod.snd]
        rw [decide_eq_decide]
        omega

/-- Characterization of the drained streamer: with any positive buffer size
and enough fuel, the emitted frame starts are exactly
`i, i + ch, …` for the `(samples.length - i) / ch` complete frames that
remain. -/
theorem streamerDrain_eq (samples : List ℚ) (ch B : Nat)
    (hch : 1 ≤ ch) (hB : 1 ≤ B) :
    ∀ (fuel i : Nat), samples.length - i ≤ fuel →
      streamerDrain samples ch B fuel i =
        (List.range ((samples.length - i) / ch)).map fun j => i + j * ch := by
  have hBc : 1 ≤ B * ch := Nat.mul_pos hB hch
  intro fuel
  induction fuel with
  | zero =>
    intro i hfi
    have h0 : samples.length - i = 0 := by omega
    simp [streamerDrain, h0]
  | succ fuel ih =>
    intro i hfi
    simp only [streamerDrain]
    rw [multiChannelStreamer_call samples ch hch B i]
    by_cases hok : B ≤ (samples.length - i) / ch
    · have hBc2 : B * ch ≤ samples.length - i :=
        (Nat.le_div_iff_mul_le (by omega)).mp hok
      have hstep : (samples.length - (i + B * ch)) / ch =
          (samples.length - i) / ch - B := by
        have hsub := Nat.sub_mul_div (samples.length - i) ch B
          (le_of_eq_of_le (Nat.mul_comm ch B) hBc2)
        rw [Nat.mul_comm ch B] at hsub
        have halign : samples.length - (i + B * ch) =
            samples.length - i - B * ch := by omega
        rw [halign, hsub]
      have hrec := ih (i + B * ch) (by
        have ht : 1 ≤ B * ch := hBc
        omega)
      simp only [Prod.fst, Prod.snd]
      rw [if_pos (decide_eq_true hok), hrec, hstep, Nat.min_eq_left hok]
      have hsplit : (samples.length - i) / ch =
          B + ((samples.length - i) / ch - B) := by omega
      conv_rhs => rw [hsplit, List.range_add, List.map_append, List.map_map]
      congr 1
      apply List.map_congr_left
      intro a ha
      simp [Function.comp]
      ring
    · simp only [Prod.fst, Prod.snd]
      rw [if_neg (by simpa using hok), Nat.min_eq_right (by omega)]

/-- C7: for a sample sequence whose length is not an exact multiple of the
input channel count, the streamer of `part_000` — driven to exhaustion with
any positive buffer size — emits exactly `length / inputChannels` (floor)
frames, and every emitted frame is complete: its `ch` consecutive samples
lie entirely inside the input, so the leftover tail produces no partial
frame and no read past the end. -/
theorem streamer_complete_frames (samples : List ℚ) (ch B fuel : Nat)
    (hch : 1 ≤ ch) (hB : 1 ≤ B) (hfuel : samples.length ≤ fuel)
    (hshort : samples.length % ch ≠ 0) :
    (streamerDrain samples ch B fuel 0).length = samples.length / ch ∧
    framesComplete (streamerDrain samples ch B fuel 0) ch samples.length =
      true := by
  have hdrain := streamerDrain_eq samples ch B hch hB fuel 0 (by omega)
  rw [Nat.sub_zero] at hdrain
  constructor
  · rw [hdrain]
    simp [List.length_map, List.length_range]
  · simp only [framesComplete]
    rw [List.all_eq_true]
    intro s hs
    rw [hdrain] at hs
    obtain ⟨j, hj, rfl⟩ := List.mem_map.mp hs
    have hjlt : j < samples.length / ch := List.mem_range.mp hj
    have h1 : (j + 1) * ch ≤ (samples.length / ch) * ch :=
      Nat.mul_le_mul_right ch (by omega)
    have h2 : (samples.length / ch) * ch ≤ samples.length :=
      Nat.div_mul_le_self _ _
    have hexp : (j + 1) * ch = j * ch + ch := by ring
    exact decide_eq_true (by omega)

/-- Witness for C7: five samples at two input channels drain to exactly two
complete stereo frames; the fifth sample yields no partial frame. -/
theorem streamer_complete_frames_witness :
    ((1 : Nat) ≤ 2 ∧ (1 : Nat) ≤ 1 ∧
      ([1, 2, 3, 4, 5] : List ℚ).length ≤ 5 ∧
      ([1, 2, 3, 4, 5] : List ℚ).length % 2 ≠ 0) ∧
    ((streamerDrain [1, 2, 3, 4, 5] 2 1 5 0).length =
        ([1, 2, 3, 4, 5] : List ℚ).length / 2 ∧
      framesComplete (streamerDrain [1, 2, 3, 4, 5] 2 1 5 0) 2
        ([1, 2, 3, 4, 5] : List ℚ).length = true) :=
  ⟨⟨by decide, by decide, by decide, by decide⟩,
    streamer_complete_frames [1, 2, 3, 4, 5] 2 1 5
      (by decide) (by decide) (by decide) (by decide)⟩

/-- Witness for C9: finalizing the program's placeholder header leaves byte
10 (inside the WAVE tag region) unchanged, and the length stays 44. -/
theorem updateWavHeader_frame_witness :
    44 ≤ (writeWavHeader 16000 1 16 0).length ∧
    ((10 : Nat) < 4 ∨ 8 ≤ (10 : Nat)) ∧
    ((10 : Nat) < 40 ∨ 44 ≤ (10 : Nat)) ∧
    ((updateWavHeader (writeWavHeader 16000 1 16 0) 3072).length =
        (writeWavHeader 16000 1 16 0).length ∧
      (updateWavHeader (writeWavHeader 16000 1 16 0) 3072).getD 10 0 =
        (writeWavHeader 16000 1 16 0).getD 10 0) :=
  ⟨by decide, by decide, by decide,
    updateWavHeader_frame (writeWavHeader 16000 1 16 0) 3072 10
      (by decide) (by decide) (by decide)⟩

end AudioGrab
